import Mathlib

/-!
Verification of the time-normalization and range-analytics core of the
blood-sugar tracker (src/app.py): timestamp normalization to UTC
(ensure_utc), local-time projection (to_local), date-window and context
filtering (mask / view), and the analytics functions (est_a1c_from_eag,
time_in_range, and the mean of the filtered view).

Timestamps are modelled in whole minutes.  A zone-aware timestamp is a
pair of a wall-clock value and a zone offset; the absolute instant it
denotes is wall - offset.  Rounding of floats to d decimal places is
modelled exactly on the rationals with round-half-to-even, the rounding
mode of round in Python.
-/

namespace BloodSugar

/-- Floor of a rational, written on the numerator and denominator so that
the kernel can evaluate it (Int division is Euclidean, hence it floors
here because the denominator is positive). -/
def rfloor (q : ℚ) : ℤ := q.num / (q.den : ℤ)

theorem rfloor_eq_floor (q : ℚ) : rfloor q = ⌊q⌋ :=
  Rat.floor_def.symm

/-- Round-half-to-even on the rationals, the rounding mode of round(x)
in Python: nearest integer, ties to the even neighbour. -/
def rhe (q : ℚ) : ℤ :=
  if q - (rfloor q : ℚ) < 1/2 then rfloor q
  else if 1/2 < q - (rfloor q : ℚ) then rfloor q + 1
  else if rfloor q % 2 = 0 then rfloor q else rfloor q + 1

/-- Model of round(x, n) in Python: round to n decimal places, ties to
even. -/
def roundTo (n : ℕ) (q : ℚ) : ℚ :=
  (rhe (q * 10 ^ n) : ℚ) / 10 ^ n

/-- Embedding of est_a1c_from_eag (src/app.py lines 146-148):
return round((eag_mgdl + 46.7) / 28.7, 2). -/
def est_a1c_from_eag (eag_mgdl : ℚ) : ℚ :=
  roundTo 2 ((eag_mgdl + 467/10) / (287/10))

/-- The A1C formula exactly as the spec words it: the fixed linear
relation A1C = (mean_mgdl + 46.7) / 28.7, rounded to 2 decimal places. -/
def spec_a1c (mean_mgdl : ℚ) : ℚ :=
  roundTo 2 ((mean_mgdl + 467/10) / (287/10))

/-- A zone-aware timestamp, in whole minutes: wall is the clock reading
in its own zone, offset is the offset of that zone from the reference
zone (UTC), so the absolute instant denoted is wall - offset. -/
structure Ts where
  wall : ℤ
  offset : ℤ
deriving DecidableEq

/-- The absolute instant a zone-aware timestamp denotes. -/
def Ts.instant (t : Ts) : ℤ := t.wall - t.offset

/-- Model of pandas tz_convert: reexpress an aware timestamp in the zone
with the given offset; the absolute instant is unchanged. -/
def tz_convert (off : ℤ) (t : Ts) : Ts := ⟨t.wall - t.offset + off, off⟩

/-- Model of pandas tz_localize applied with zone UTC: tag a naive
wall-clock value as UTC without changing the clock reading. -/
def tz_localize_utc (wall : ℤ) : Ts := ⟨wall, 0⟩

/-- A raw value arriving at the normalizer: a zone-naive date-time, a
zone-aware one, or anything that pd.to_datetime(x, errors="coerce")
turns into NaT (unparseable strings, NaT itself, None). -/
inductive RawTs where
  | naive (wall : ℤ)
  | aware (wall : ℤ) (offset : ℤ)
  | malformed
deriving DecidableEq

/-- Embedding of the inner fix of ensure_utc (src/app.py lines 109-115):
coerce-parse, return the NaT sentinel on failure, tz_localize("UTC") a
naive value, tz_convert("UTC") an aware one. -/
def fix : RawTs → Option Ts
  | .naive w => some (tz_localize_utc w)
  | .aware w o => some (tz_convert 0 ⟨w, o⟩)
  | .malformed => none

/-- Embedding of ensure_utc (src/app.py lines 108-116): fix applied
elementwise to the series. -/
def ensure_utc (s : List RawTs) : List (Option Ts) := s.map fix

/-- Reinject a normalized column value into the input domain of the
normalizer: NaT stays an unparseable-as-missing value, an aware
timestamp keeps its wall clock and offset. -/
def toRaw : Option Ts → RawTs
  | none => .malformed
  | some t => .aware t.wall t.offset

/-- True on the rows that pd.to_datetime can parse at all. -/
def wellFormed : RawTs → Bool
  | .malformed => false
  | _ => true

/-- One row of the store (COLUMNS, src/app.py line 13); the datetime
column after ensure_utc holds either a canonical timestamp or NaT. -/
structure Reading where
  datetime : Option Ts
  glucose_mgdl : ℤ
  context : String
  carbs_g : ℚ
  insulin_units : ℚ
  notes : String
deriving DecidableEq

/-- The calendar date (as a day number) that Series.dt.date reads off an
aware timestamp: the date of the wall clock in its own zone. -/
def dtDate (t : Ts) : ℤ := t.wall.fdiv 1440

/-- The calendar date of the instant of t in the zone with offset off:
what the spec calls the local calendar date of the timestamp. -/
def localDate (off : ℤ) (t : Ts) : ℤ := (t.instant + off).fdiv 1440

/-- Embedding of the mask of src/app.py lines 120-122: a row passes iff
its dt.date (NaT never passes a comparison) lies in the inclusive
window and, when the context multiselect is non-empty, its context is
among the selected ones. -/
def mask (start_date end_date : ℤ) (ctx_filter : List String) (r : Reading) : Bool :=
  match r.datetime with
  | none => false
  | some t =>
      decide (start_date ≤ dtDate t) && decide (dtDate t ≤ end_date)
        && (ctx_filter.isEmpty || ctx_filter.contains r.context)

/-- Embedding of view = df.loc[mask].copy() (src/app.py lines 118-125):
the filtered subsequence in store order; an empty store yields an empty
view without entering the mask branch, which the filter of the empty
list also models. -/
def view (start_date end_date : ℤ) (ctx_filter : List String) (df : List Reading) : List Reading :=
  df.filter (mask start_date end_date ctx_filter)

/-- The filter inclusion test exactly as the spec words it:
local_date(r.timestamp) >= start_date AND local_date(r.timestamp)
<= end_date, with every context passing when the allow-set is empty;
off is the offset of the local zone. -/
def spec_includes (off start_date end_date : ℤ) (ctxs : List String) (r : Reading) : Bool :=
  match r.datetime with
  | none => false
  | some t =>
      decide (start_date ≤ localDate off t) && decide (localDate off t ≤ end_date)
        && (ctxs.isEmpty || ctxs.contains r.context)

/-- True when a row carries a canonical (reference-zone) timestamp or no
timestamp at all, the state of every row after ensure_utc ran on the
datetime column. -/
def canonical (r : Reading) : Bool :=
  match r.datetime with
  | none => true
  | some t => t.offset == 0

/-- Embedding of the inner fix_ts of to_local (src/app.py lines
129-139): NaT passes through; the value is brought to UTC (the stored
values are zone-aware after ensure_utc, so the tz_localize branch for
naive values cannot fire) and then converted to the local zone. -/
def fix_ts (local_off : ℤ) : Option Ts → Option Ts
  | none => none
  | some t => some (tz_convert local_off (tz_convert 0 t))

/-- Embedding of to_local (src/app.py lines 128-140): fix_ts applied
elementwise to the datetime column. -/
def to_local (local_off : ℤ) (s : List (Option Ts)) : List (Option Ts) :=
  s.map (fix_ts local_off)

/-- Embedding of view["local_dt"] = to_local(view["datetime"]) (line
143): each row is paired with its display projection; the row itself,
in particular its canonical datetime, is untouched. -/
def withLocalColumn (local_off : ℤ) (v : List Reading) : List (Reading × Option Ts) :=
  v.map fun r => (r, fix_ts local_off r.datetime)

/-- Count of readings strictly below the low threshold
(src/app.py line 155). -/
def count_below (series : List ℤ) (low : ℤ) : ℕ :=
  (series.filter fun g => decide (g < low)).length

/-- Count of readings inside the inclusive [low, high] band
(src/app.py line 154). -/
def count_in (series : List ℤ) (low high : ℤ) : ℕ :=
  (series.filter fun g => decide (low ≤ g) && decide (g ≤ high)).length

/-- Count of readings strictly above the high threshold
(src/app.py line 156). -/
def count_above (series : List ℤ) (high : ℤ) : ℕ :=
  (series.filter fun g => decide (high < g)).length

/-- Embedding of time_in_range (src/app.py lines 150-157) over the
glucose column; percentages are exact rationals and round(x, 1) is
roundTo 1. -/
def time_in_range (series : List ℤ) (low high : ℤ) : ℚ × ℚ × ℚ :=
  if series.length = 0 then (0, 0, 0)
  else
    (roundTo 1 (100 * (count_in series low high : ℚ) / (series.length : ℚ)),
     roundTo 1 (100 * (count_below series low : ℚ) / (series.length : ℚ)),
     roundTo 1 (100 * (count_above series high : ℚ) / (series.length : ℚ)))

/-- Embedding of the average of the metrics block (src/app.py lines
160-171): an empty view shows an em dash (an explicit no-data state,
modelled as none), otherwise avg = view["glucose_mgdl"].mean(). -/
def mean_glucose (subset : List ℤ) : Option ℚ :=
  if subset.length = 0 then none
  else some ((subset.map fun g => (g : ℚ)).sum / (subset.length : ℚ))

/-! Helper lemmas about the rounding model and the bucket counts. -/

theorem abs_rhe_sub_le (q : ℚ) : |(rhe q : ℚ) - q| ≤ 1/2 := by
  have hle : (rfloor q : ℚ) ≤ q := by
    rw [rfloor_eq_floor]; exact Int.floor_le q
  have hlt : q < (rfloor q : ℚ) + 1 := by
    rw [rfloor_eq_floor]; exact Int.lt_floor_add_one q
  unfold rhe
  split_ifs with h1 h2 h3
  · rw [abs_le]; constructor <;> linarith
  · push_cast
    rw [abs_le]; constructor <;> linarith
  · rw [abs_le]; constructor <;> linarith
  · push_cast
    rw [abs_le]; constructor <;> linarith

theorem abs_roundTo_one_sub_le (q : ℚ) : |roundTo 1 q - q| ≤ 1/20 := by
  have h := abs_rhe_sub_le (q * 10)
  unfold roundTo
  rw [pow_one]
  have e : (rhe (q * 10) : ℚ) / 10 - q = ((rhe (q * 10) : ℚ) - q * 10) / 10 := by
    ring
  have h10 : |(10 : ℚ)| = 10 := by norm_num
  rw [e, abs_div, h10]
  linarith

theorem counts_partition (series : List ℤ) (low high : ℤ) (h : low ≤ high) :
    count_below series low + count_in series low high + count_above series high
      = series.length := by
  induction series with
  | nil => rfl
  | cons a t ih =>
    unfold count_below count_in count_above at ih ⊢
    by_cases h1 : a < low
    · have h2 : ¬ high < a := by omega
      have h3 : ¬ (low ≤ a) := by omega
      simp [List.filter_cons, h1, h2, h3]
      omega
    · by_cases h2 : high < a
      · have h3 : ¬ (a ≤ high) := by omega
        simp [List.filter_cons, h1, h2, h3]
        omega
      · have h3 : low ≤ a := by omega
        have h4 : a ≤ high := by omega
        simp [List.filter_cons, h1, h2, h3, h4]
        omega

/-- C1, counterexample: the spec computes the example value wrongly;
(154 + 46.7) / 28.7 = 6.9930..., so est_a1c_from_eag at mean 154 mg/dL
is 6.99 after rounding to 2 places, not 7.0. -/
theorem est_a1c_at_154_ne_seven : est_a1c_from_eag 154 ≠ 7 := by
  norm_num [est_a1c_from_eag, roundTo, rhe, rfloor]

/-- C1, amended: est_a1c_from_eag applies the fixed relation
A1C = (mean_mgdl + 46.7) / 28.7 rounded to 2 decimal places, and in
particular est_a1c_from_eag(154.0) equals 6.99. -/
theorem est_a1c_formula_and_value :
    (∀ m : ℚ, est_a1c_from_eag m = spec_a1c m)
      ∧ est_a1c_from_eag 154 = 699/100 :=
  ⟨fun _ => rfl, by norm_num [est_a1c_from_eag, roundTo, rhe, rfloor]⟩

/-- C4: for every low and high, time_in_range applied to the empty
subset returns exactly (0.0, 0.0, 0.0). -/
theorem time_in_range_empty (low high : ℤ) :
    time_in_range [] low high = (0, 0, 0) := by
  simp [time_in_range]

/-- C6: the mean of the empty subset is the explicit no-data state none,
never the number 0; for every non-empty subset it is the arithmetic mean
of the glucose values. -/
theorem mean_glucose_empty_undefined_and_mean :
    mean_glucose [] = none
    ∧ mean_glucose [] ≠ some 0
    ∧ ∀ (a : ℤ) (t : List ℤ),
        mean_glucose (a :: t)
          = some ((((a :: t).map fun g => (g : ℚ)).sum) / (((a :: t).length : ℕ) : ℚ)) := by
  refine ⟨rfl, by simp [mean_glucose], fun a t => ?_⟩
  simp [mean_glucose]

/-- C5: a raw timestamp that fails to parse is mapped to the missing
sentinel (none, the NaT of pandas), which is not the epoch value, is
excluded by the range filter, and for a batch of rows the normalizer
yields exactly as many canonical timestamps as there are well-formed
rows. -/
theorem ensure_utc_missing_policy :
    fix RawTs.malformed = none
    ∧ fix RawTs.malformed ≠ some (tz_localize_utc 0)
    ∧ (∀ (s e : ℤ) (c : List String) (g : ℤ) (ctx : String) (cg iu : ℚ) (nt : String),
        mask s e c ⟨none, g, ctx, cg, iu, nt⟩ = false)
    ∧ ∀ s : List RawTs,
        ((ensure_utc s).filterMap id).length = (s.filter wellFormed).length := by
  refine ⟨rfl, by simp [fix], fun s e c g ctx cg iu nt => rfl, fun s => ?_⟩
  induction s with
  | nil => rfl
  | cons r t ih =>
    cases r <;> simp [ensure_utc, fix, wellFormed, List.filterMap_cons] at ih ⊢ <;> omega

/-- C7: for every sequence of readings and every window with
start_date > end_date, the filter returns the empty subsequence. -/
theorem view_empty_when_start_gt_end (s e : ℤ) (c : List String) (df : List Reading)
    (h : e < s) : view s e c df = [] := by
  unfold view
  rw [List.filter_eq_nil_iff]
  intro r hr
  cases hd : r.datetime with
  | none => simp [mask, hd]
  | some t =>
    simp only [mask, hd, Bool.and_eq_true, decide_eq_true_eq, not_and]
    intro h1 h2
    exfalso
    omega

/-- Witness for C7: a concrete non-empty store and a reversed window. -/
theorem view_empty_witness :
    (3 : ℤ) < 5
    ∧ view 5 3 [] [⟨some ⟨0, 0⟩, 100, "fasting", 0, 0, ""⟩] = [] :=
  ⟨by decide, view_empty_when_start_gt_end 5 3 [] _ (by decide)⟩

/-- C8: projecting a canonical timestamp to any local zone and
converting back to the reference zone reproduces it exactly, and
attaching the local display column leaves every stored row, hence its
canonical datetime, unchanged. -/
theorem to_local_round_trip_and_pure :
    (∀ t : Ts, t.offset = 0 → ∀ off : ℤ,
        (fix_ts off (some t)).map (tz_convert 0) = some t)
    ∧ ∀ (off : ℤ) (v : List Reading), (withLocalColumn off v).map Prod.fst = v := by
  constructor
  · rintro ⟨w, o⟩ h0 off
    simp only at h0
    subst h0
    simp [fix_ts, tz_convert]
  · intro off v
    induction v with
    | nil => rfl
    | cons r u ih =>
      simp only [withLocalColumn, List.map_cons] at ih ⊢
      rw [ih]

/-- Witness for C8: the round trip at a concrete canonical timestamp
and a concrete zone offset of nine hours. -/
theorem to_local_round_trip_witness :
    (Ts.mk 123 0).offset = 0
    ∧ (fix_ts 540 (some ⟨123, 0⟩)).map (tz_convert 0) = some ⟨123, 0⟩ :=
  ⟨rfl, to_local_round_trip_and_pure.1 ⟨123, 0⟩ rfl 540⟩

/-- C10: ensure_utc is idempotent, a zone-naive value is tagged UTC
without changing its wall clock, a zone-aware value is converted to UTC
preserving its instant, and every non-missing output carries the UTC
reference-zone tag. -/
theorem ensure_utc_idempotent_and_utc_tagged :
    (∀ s : List RawTs, ensure_utc ((ensure_utc s).map toRaw) = ensure_utc s)
    ∧ (∀ w : ℤ, fix (RawTs.naive w) = some ⟨w, 0⟩)
    ∧ (∀ w o : ℤ, fix (RawTs.aware w o) = some ⟨w - o, 0⟩)
    ∧ ∀ (s : List RawTs) (t : Ts), some t ∈ ensure_utc s → t.offset = 0 := by
  refine ⟨fun s => ?_, fun w => rfl, fun w o => by simp [fix, tz_convert],
    fun s t ht => ?_⟩
  · induction s with
    | nil => rfl
    | cons r u ih =>
      cases r <;>
        simp [ensure_utc, fix, toRaw, tz_convert, tz_localize_utc] at ih ⊢ <;>
        exact ih
  · rcases List.mem_map.mp ht with ⟨r, hr, hfix⟩
    cases r with
    | naive w =>
      simp [fix, tz_localize_utc] at hfix
      rw [← hfix]
    | aware w o =>
      simp [fix, tz_convert] at hfix
      rw [← hfix]
    | malformed => simp [fix] at hfix

/-- Witness for C10: the UTC tag of a concrete normalized value. -/
theorem ensure_utc_tagged_witness :
    some (Ts.mk 5 0) ∈ ensure_utc [RawTs.naive 5]
    ∧ (Ts.mk 5 0).offset = 0 :=
  ⟨by simp [ensure_utc, fix, tz_localize_utc],
   ensure_utc_idempotent_and_utc_tagged.2.2.2 [RawTs.naive 5] ⟨5, 0⟩
     (by simp [ensure_utc, fix, tz_localize_utc])⟩

/-- C2, counterexample: the mask compares the reference-zone (UTC)
calendar date, not the local calendar date; a reading at 23:00 UTC of
day 0 is excluded from the window [1, 1] even though its local calendar
date in a zone two hours east of UTC is day 1 and its context passes. -/
theorem filter_uses_reference_not_local_date :
    view 1 1 [] [⟨some ⟨1380, 0⟩, 100, "fasting", 0, 0, ""⟩] = []
    ∧ spec_includes 120 1 1 [] ⟨some ⟨1380, 0⟩, 100, "fasting", 0, 0, ""⟩ = true := by
  constructor
  · simp [view, mask, dtDate, List.filter]
  · simp [spec_includes, localDate, Ts.instant]

/-- C2, amended: over a store of normalized rows the filter includes a
reading exactly when the reading carries a timestamp whose canonical
(reference-zone) calendar date lies in the inclusive window and, when
the allow-set is non-empty, its context is in the allow-set; an empty
allow-set passes every context. -/
theorem view_mem_iff_reference_date_in_window (s e : ℤ) (c : List String)
    (df : List Reading) (h : ∀ r ∈ df, canonical r = true) (r : Reading) :
    r ∈ view s e c df ↔ r ∈ df ∧ spec_includes 0 s e c r = true := by
  unfold view
  rw [List.mem_filter]
  have key : r ∈ df → mask s e c r = spec_includes 0 s e c r := by
    intro hr
    have hc := h r hr
    cases hd : r.datetime with
    | none => simp [mask, spec_includes, hd]
    | some t =>
      have ho : t.offset = 0 := by
        simpa [canonical, hd] using hc
      have hdd : localDate 0 t = dtDate t := by
        simp [localDate, dtDate, Ts.instant, ho]
      simp [mask, spec_includes, hd, hdd]
  constructor
  · rintro ⟨h1, h2⟩
    exact ⟨h1, by rw [← key h1]; exact h2⟩
  · rintro ⟨h1, h2⟩
    exact ⟨h1, by rw [key h1]; exact h2⟩

/-- Witness for C2: the inclusion equivalence at a concrete normalized
store and window. -/
theorem view_mem_iff_witness :
    (∀ r ∈ [(⟨some ⟨10, 0⟩, 100, "fasting", 0, 0, ""⟩ : Reading)], canonical r = true)
    ∧ ((⟨some ⟨10, 0⟩, 100, "fasting", 0, 0, ""⟩ : Reading)
          ∈ view 0 0 [] [⟨some ⟨10, 0⟩, 100, "fasting", 0, 0, ""⟩]
        ↔ (⟨some ⟨10, 0⟩, 100, "fasting", 0, 0, ""⟩ : Reading)
            ∈ [(⟨some ⟨10, 0⟩, 100, "fasting", 0, 0, ""⟩ : Reading)]
          ∧ spec_includes 0 0 0 [] ⟨some ⟨10, 0⟩, 100, "fasting", 0, 0, ""⟩ = true) :=
  ⟨by decide,
   view_mem_iff_reference_date_in_window 0 0 [] _ (by decide) _⟩

/-- C3, counterexample: without low <= high the three percentages need
not sum to 100; at series [70] with low 100 and high 50 the reading is
counted both below and above, and the sum is 200. -/
theorem tir_sum_fails_when_low_gt_high :
    time_in_range [70] 100 50 = (0, 100, 100)
    ∧ ¬ (|(time_in_range [70] 100 50).1 + (time_in_range [70] 100 50).2.1
          + (time_in_range [70] 100 50).2.2 - 100| ≤ 3/10) := by
  have h1 : count_in [70] 100 50 = 0 := by decide
  have h2 : count_below [70] 100 = 1 := by decide
  have h3 : count_above [70] 50 = 1 := by decide
  have e : time_in_range [70] 100 50 = (0, 100, 100) := by
    norm_num [time_in_range, h1, h2, h3, roundTo, rhe, rfloor]
  refine ⟨e, ?_⟩
  rw [e]
  norm_num

/-- C3, amended: for every non-empty series and thresholds with
low <= high, time_in_range returns the three percentages
round(100 * count / total, 1) for the partition in-range, below, above,
and they sum to 100 within the tolerance of 0.1 per component. -/
theorem tir_formula_and_sum (series : List ℤ) (low high : ℤ)
    (hne : series ≠ []) (hlh : low ≤ high) :
    time_in_range series low high =
      (roundTo 1 (100 * (count_in series low high : ℚ) / (series.length : ℚ)),
       roundTo 1 (100 * (count_below series low : ℚ) / (series.length : ℚ)),
       roundTo 1 (100 * (count_above series high : ℚ) / (series.length : ℚ)))
    ∧ |(time_in_range series low high).1 + (time_in_range series low high).2.1
        + (time_in_range series low high).2.2 - 100| ≤ 3/10 := by
  have hn : series.length ≠ 0 := by
    simpa [List.length_eq_zero] using hne
  have e : time_in_range series low high =
      (roundTo 1 (100 * (count_in series low high : ℚ) / (series.length : ℚ)),
       roundTo 1 (100 * (count_below series low : ℚ) / (series.length : ℚ)),
       roundTo 1 (100 * (count_above series high : ℚ) / (series.length : ℚ))) := by
    rw [time_in_range, if_neg hn]
  refine ⟨e, ?_⟩
  rw [e]
  set x : ℚ := 100 * (count_in series low high : ℚ) / (series.length : ℚ) with hx
  set y : ℚ := 100 * (count_below series low : ℚ) / (series.length : ℚ) with hy
  set z : ℚ := 100 * (count_above series high : ℚ) / (series.length : ℚ) with hz
  have hnq : (series.length : ℚ) ≠ 0 := by
    exact_mod_cast hn
  have hsum : x + y + z = 100 := by
    rw [hx, hy, hz]
    have hc : (count_below series low : ℚ) + (count_in series low high : ℚ)
        + (count_above series high : ℚ) = (series.length : ℚ) := by
      exact_mod_cast counts_partition series low high hlh
    field_simp
    linarith [hc]
  have b1 := abs_roundTo_one_sub_le x
  have b2 := abs_roundTo_one_sub_le y
  have b3 := abs_roundTo_one_sub_le z
  have e2 : roundTo 1 x + roundTo 1 y + roundTo 1 z - 100
      = (roundTo 1 x - x) + (roundTo 1 y - y) + (roundTo 1 z - z) := by
    rw [← hsum]; ring
  simp only []
  rw [e2]
  calc |(roundTo 1 x - x) + (roundTo 1 y - y) + (roundTo 1 z - z)|
      ≤ |roundTo 1 x - x| + |roundTo 1 y - y| + |roundTo 1 z - z| := abs_add_three _ _ _
    _ ≤ 3/10 := by linarith

/-- Witness for C3: the scenario of the spec, readings
[100, 90, 200, 250] with band [70, 180]. -/
theorem tir_formula_and_sum_witness :
    ([100, 90, 200, 250] : List ℤ) ≠ []
    ∧ (70 : ℤ) ≤ 180
    ∧ |(time_in_range [100, 90, 200, 250] 70 180).1
        + (time_in_range [100, 90, 200, 250] 70 180).2.1
        + (time_in_range [100, 90, 200, 250] 70 180).2.2 - 100| ≤ 3/10 :=
  ⟨by decide, by decide,
   (tir_formula_and_sum [100, 90, 200, 250] 70 180 (by decide) (by decide)).2⟩

/-- C9: with low <= high the below, in-range and above counts partition
every non-empty (indeed every) series, summing exactly to its length;
and the hypothesis is required: with low = 100 > 50 = high the value 70,
strictly between high and low, is counted in both the below and above
buckets and the counts sum to 2 over a one-element series. -/
theorem counts_partition_needs_ordered_thresholds :
    (∀ (series : List ℤ) (low high : ℤ), low ≤ high →
        count_below series low + count_in series low high + count_above series high
          = series.length)
    ∧ (count_below [70] 100 = 1 ∧ count_above [70] 50 = 1 ∧ count_in [70] 100 50 = 0
        ∧ count_below [70] 100 + count_in [70] 100 50 + count_above [70] 50
            ≠ ([70] : List ℤ).length) :=
  ⟨fun series low high h => counts_partition series low high h,
   by decide, by decide, by decide, by decide⟩

/-- Witness for C9: the exact partition at a concrete series and the
default band [70, 180]. -/
theorem counts_partition_witness :
    (70 : ℤ) ≤ 180
    ∧ count_below [100, 90, 200, 250] 70 + count_in [100, 90, 200, 250] 70 180
        + count_above [100, 90, 200, 250] 180 = ([100, 90, 200, 250] : List ℤ).length :=
  ⟨by decide,
   counts_partition_needs_ordered_thresholds.1 [100, 90, 200, 250] 70 180 (by decide)⟩

end BloodSugar
